import Mathlib

/-!
Verification of the github-sync repository (src/github-sync.py) against its
natural-language specification.

The script mirrors starred GitHub repositories into a GitLab group.  We embed
its pure parts directly (the name mapper `convert_name`), and its effectful
parts (`syncrepo`, the paginated listers, the orchestrator `sync`) as functions
over an explicit `World` record that supplies the outcome of every external
call (GitLab API calls, `os.path.exists`, `os.makedirs`, `run_command`).
Each effectful run returns the list of externally visible actions it attempted,
in order, together with its result.
-/

namespace GithubSync

/-- `Repo = namedtuple("Repo", ["name", "url", "description", "id"])`
(src/github-sync.py line 12).  GitHub's JSON `description` may be `null`,
hence `Option String`. -/
structure Repo where
  name : String
  url : String
  description : Option String
  id : Nat
deriving DecidableEq, Repr

/-! ### The name mapper

`convert_name(name)` is `name.replace("__", "___").replace("/", "__")`
(lines 15-16).  Python's `str.replace` scans left to right and replaces
non-overlapping occurrences.  We embed the two fixed-pattern replacements as
structural recursions on the character list. -/

/-- `s.replace("__", "___")`: left-to-right, non-overlapping replacement of
each occurrence of two underscores by three. -/
def escapeUnderscores : List Char → List Char
  | [] => []
  | [c] => [c]
  | c₁ :: c₂ :: rest =>
    if c₁ = '_' ∧ c₂ = '_' then '_' :: '_' :: '_' :: escapeUnderscores rest
    else c₁ :: escapeUnderscores (c₂ :: rest)

/-- `s.replace("/", "__")`: replacement of each slash by two underscores. -/
def replaceSlashes : List Char → List Char
  | [] => []
  | c :: rest =>
    if c = '/' then '_' :: '_' :: replaceSlashes rest
    else c :: replaceSlashes rest

/-- `convert_name` on character lists:
first `replace("__", "___")`, then `replace("/", "__")`. -/
def convertChars (s : List Char) : List Char :=
  replaceSlashes (escapeUnderscores s)

/-- `def convert_name(name): return name.replace("__", "___").replace("/", "__")`
(src/github-sync.py lines 15-16). -/
def convert_name (name : String) : String :=
  String.mk (convertChars name.data)

/-- Left inverse of `escapeUnderscores`: collapse each leftmost run of three
underscores back to two. -/
def unescapeUnderscores : List Char → List Char
  | [] => []
  | [c] => [c]
  | [c₁, c₂] => [c₁, c₂]
  | c₁ :: c₂ :: c₃ :: rest =>
    if c₁ = '_' ∧ c₂ = '_' ∧ c₃ = '_' then '_' :: '_' :: unescapeUnderscores rest
    else c₁ :: unescapeUnderscores (c₂ :: c₃ :: rest)

theorem escapeUnderscores_cons_ne (c : Char) (s : List Char) (hc : c ≠ '_') :
    escapeUnderscores (c :: s) = c :: escapeUnderscores s := by
  cases s with
  | nil => rfl
  | cons c₂ t => simp [escapeUnderscores, hc]

theorem escapeUnderscores_underscore_pair (s : List Char) :
    escapeUnderscores ('_' :: '_' :: s) = '_' :: '_' :: '_' :: escapeUnderscores s := by
  simp [escapeUnderscores]

theorem unescapeUnderscores_cons_ne (c : Char) (s : List Char) (hc : c ≠ '_') :
    unescapeUnderscores (c :: s) = c :: unescapeUnderscores s := by
  match s with
  | [] => rfl
  | [c₂] => rfl
  | c₂ :: c₃ :: t => simp [unescapeUnderscores, hc]

theorem unescapeUnderscores_underscore_cons_ne (c : Char) (s : List Char) (hc : c ≠ '_') :
    unescapeUnderscores ('_' :: c :: s) = '_' :: c :: unescapeUnderscores s := by
  match s with
  | [] => rfl
  | c₃ :: t =>
    rw [show unescapeUnderscores ('_' :: c :: c₃ :: t)
        = '_' :: unescapeUnderscores (c :: c₃ :: t) by simp [unescapeUnderscores, hc]]
    rw [unescapeUnderscores_cons_ne c (c₃ :: t) hc]

/-- Custom induction principle following the case analysis of
`escapeUnderscores`. -/
theorem escInduction (P : List Char → Prop) (h0 : P []) (h1 : P ['_'])
    (h2 : ∀ s, P s → P ('_' :: '_' :: s))
    (h3 : ∀ c s, c ≠ '_' → P s → P (c :: s))
    (h4 : ∀ c s, c ≠ '_' → P (c :: s) → P ('_' :: c :: s)) :
    ∀ s, P s := by
  have main : ∀ n (s : List Char), s.length ≤ n → P s := by
    intro n
    induction n with
    | zero =>
      intro s hs
      cases s with
      | nil => exact h0
      | cons c t => simp at hs
    | succ n ih =>
      intro s hs
      match s with
      | [] => exact h0
      | [c] =>
        by_cases hc : c = '_'
        · subst hc; exact h1
        · exact h3 c [] hc h0
      | c₁ :: c₂ :: t =>
        simp only [List.length_cons] at hs
        by_cases hc₁ : c₁ = '_'
        · subst hc₁
          by_cases hc₂ : c₂ = '_'
          · subst hc₂
            exact h2 t (ih t (by omega))
          · exact h4 c₂ t hc₂ (ih (c₂ :: t) (by simp; omega))
        · exact h3 c₁ (c₂ :: t) hc₁ (ih (c₂ :: t) (by simp; omega))
  exact fun s => main s.length s le_rfl

/-- `unescapeUnderscores` undoes `escapeUnderscores`, hence the escaping step
is injective on all strings. -/
theorem unescape_escape (s : List Char) :
    unescapeUnderscores (escapeUnderscores s) = s := by
  induction s using escInduction with
  | h0 => rfl
  | h1 => rfl
  | h2 s ih =>
    rw [escapeUnderscores_underscore_pair]
    rw [show unescapeUnderscores ('_' :: '_' :: '_' :: escapeUnderscores s)
        = '_' :: '_' :: unescapeUnderscores (escapeUnderscores s) by
      simp [unescapeUnderscores]]
    rw [ih]
  | h3 c s hc ih =>
    rw [escapeUnderscores_cons_ne c s hc, unescapeUnderscores_cons_ne _ _ hc, ih]
  | h4 c s hc ih =>
    have hesc : escapeUnderscores ('_' :: c :: s) = '_' :: c :: escapeUnderscores s := by
      rw [show escapeUnderscores ('_' :: c :: s)
          = '_' :: escapeUnderscores (c :: s) by simp [escapeUnderscores, hc]]
      rw [escapeUnderscores_cons_ne c s hc]
    have h' : unescapeUnderscores (escapeUnderscores s) = s := by
      have h2 := ih
      rw [escapeUnderscores_cons_ne c s hc, unescapeUnderscores_cons_ne _ _ hc] at h2
      injection h2
    rw [hesc, unescapeUnderscores_underscore_cons_ne c _ hc, h']

/-- `escapeUnderscores` is injective. -/
theorem escapeUnderscores_injective {s t : List Char}
    (h : escapeUnderscores s = escapeUnderscores t) : s = t := by
  have := congrArg unescapeUnderscores h
  rwa [unescape_escape, unescape_escape] at this

theorem replaceSlashes_cons_ne (c : Char) (s : List Char) (hc : c ≠ '/') :
    replaceSlashes (c :: s) = c :: replaceSlashes s := by
  simp [replaceSlashes, hc]

theorem replaceSlashes_slash (s : List Char) :
    replaceSlashes ('/' :: s) = '_' :: '_' :: replaceSlashes s := by
  simp [replaceSlashes]

theorem escapeUnderscores_append (o s : List Char) (ho : ∀ c ∈ o, c ≠ '_') :
    escapeUnderscores (o ++ s) = o ++ escapeUnderscores s := by
  induction o with
  | nil => rfl
  | cons c o' ih =>
    rw [List.cons_append, escapeUnderscores_cons_ne c _ (ho c (by simp)),
      ih (fun c hc => ho c (by simp [hc]))]
    rfl

theorem replaceSlashes_append (o s : List Char) (ho : ∀ c ∈ o, c ≠ '/') :
    replaceSlashes (o ++ s) = o ++ replaceSlashes s := by
  induction o with
  | nil => rfl
  | cons c o' ih =>
    rw [List.cons_append, replaceSlashes_cons_ne c _ (ho c (by simp)),
      ih (fun c hc => ho c (by simp [hc]))]
    rfl

theorem replaceSlashes_eq_self (s : List Char) (hs : ∀ c ∈ s, c ≠ '/') :
    replaceSlashes s = s := by
  induction s with
  | nil => rfl
  | cons c s' ih =>
    rw [replaceSlashes_cons_ne c _ (hs c (by simp)),
      ih (fun c hc => hs c (by simp [hc]))]

/-- Every character of the escaped string is an underscore or a character of
the input. -/
theorem mem_escapeUnderscores (s : List Char) :
    ∀ c ∈ escapeUnderscores s, c = '_' ∨ c ∈ s := by
  induction s using escInduction with
  | h0 => simp [escapeUnderscores]
  | h1 => simp [escapeUnderscores]
  | h2 s ih =>
    rw [escapeUnderscores_underscore_pair]
    intro c hc
    simp only [List.mem_cons] at hc ⊢
    rcases hc with hc | hc | hc | hc
    · exact Or.inl hc
    · exact Or.inl hc
    · exact Or.inl hc
    · rcases ih c hc with h | h
      · exact Or.inl h
      · exact Or.inr (Or.inr (Or.inr h))
  | h3 c s hc ih =>
    rw [escapeUnderscores_cons_ne c s hc]
    intro d hd
    simp only [List.mem_cons] at hd ⊢
    rcases hd with hd | hd
    · exact Or.inr (Or.inl hd)
    · rcases ih d hd with h | h
      · exact Or.inl h
      · exact Or.inr (Or.inr h)
  | h4 c s hc ih =>
    rw [show escapeUnderscores ('_' :: c :: s)
        = '_' :: escapeUnderscores (c :: s) by simp [escapeUnderscores, hc]]
    intro d hd
    simp only [List.mem_cons] at hd ⊢
    rcases hd with hd | hd
    · exact Or.inl hd
    · rcases ih d hd with h | h
      · exact Or.inl h
      · simp only [List.mem_cons] at h
        rcases h with h | h
        · exact Or.inr (Or.inr (Or.inl h))
        · exact Or.inr (Or.inr (Or.inr h))

/-- On a realistic name `owner ++ "/" ++ repo` (owner free of `_` and `/`,
repo free of `/`), `convert_name` yields
`owner ++ "__" ++ escapeUnderscores repo`. -/
theorem convertChars_decomp (o r : List Char)
    (hou : ∀ c ∈ o, c ≠ '_') (hos : ∀ c ∈ o, c ≠ '/') (hr : ∀ c ∈ r, c ≠ '/') :
    convertChars (o ++ '/' :: r) = o ++ '_' :: '_' :: escapeUnderscores r := by
  unfold convertChars
  rw [escapeUnderscores_append o _ hou,
    escapeUnderscores_cons_ne '/' r (by decide),
    replaceSlashes_append o _ hos,
    replaceSlashes_slash,
    replaceSlashes_eq_self (escapeUnderscores r)]
  intro c hc
  rcases mem_escapeUnderscores r c hc with h | h
  · subst h; decide
  · exact hr c h

/-- The `"__"` marker splits uniquely after an underscore-free part. -/
theorem append_marker_inj :
    ∀ o₁ o₂ t₁ t₂ : List Char, (∀ c ∈ o₁, c ≠ '_') → (∀ c ∈ o₂, c ≠ '_') →
      o₁ ++ '_' :: '_' :: t₁ = o₂ ++ '_' :: '_' :: t₂ → o₁ = o₂ ∧ t₁ = t₂ := by
  intro o₁
  induction o₁ with
  | nil =>
    intro o₂ t₁ t₂ _ ho₂ h
    cases o₂ with
    | nil =>
      simp only [List.nil_append] at h
      injection h with _ h
      injection h with _ h
      exact ⟨rfl, h⟩
    | cons c o₂' =>
      simp only [List.nil_append, List.cons_append] at h
      injection h with h _
      exact absurd h.symm (ho₂ c (by simp))
  | cons c o₁' ih =>
    intro o₂ t₁ t₂ ho₁ ho₂ h
    cases o₂ with
    | nil =>
      simp only [List.nil_append, List.cons_append] at h
      injection h with h _
      exact absurd h (ho₁ c (by simp))
    | cons c₂ o₂' =>
      simp only [List.cons_append] at h
      injection h with hc h
      rcases ih o₂' t₁ t₂ (fun d hd => ho₁ d (by simp [hd])) (fun d hd => ho₂ d (by simp [hd])) h
        with ⟨h₁, h₂⟩
      exact ⟨by rw [hc, h₁], h₂⟩

/-- Claim C1 fails as stated: `convert_name` is not injective over all
strings.  The distinct names `"_/"` and `"/_"` both map to `"___"`. -/
theorem convert_name_not_injective :
    convert_name "_/" = convert_name "/_" ∧ ("_/" : String) ≠ "/_" := by
  constructor
  · rfl
  · decide

/-- Claim C1 (amended): `convert_name` is injective on the realistic input
domain of names `owner ++ "/" ++ repo` in which the owner part contains
neither `_` nor `/` and the repo part contains no `/`. -/
theorem convert_name_injective_on_realistic_names
    (o₁ r₁ o₂ r₂ : List Char)
    (ho₁u : ∀ c ∈ o₁, c ≠ '_') (ho₁s : ∀ c ∈ o₁, c ≠ '/') (hr₁ : ∀ c ∈ r₁, c ≠ '/')
    (ho₂u : ∀ c ∈ o₂, c ≠ '_') (ho₂s : ∀ c ∈ o₂, c ≠ '/') (hr₂ : ∀ c ∈ r₂, c ≠ '/')
    (h : convert_name (String.mk (o₁ ++ '/' :: r₁)) = convert_name (String.mk (o₂ ++ '/' :: r₂))) :
    String.mk (o₁ ++ '/' :: r₁) = String.mk (o₂ ++ '/' :: r₂) := by
  have hd : convertChars (o₁ ++ '/' :: r₁) = convertChars (o₂ ++ '/' :: r₂) :=
    congrArg String.data h
  rw [convertChars_decomp o₁ r₁ ho₁u ho₁s hr₁,
    convertChars_decomp o₂ r₂ ho₂u ho₂s hr₂] at hd
  rcases append_marker_inj o₁ o₂ _ _ ho₁u ho₂u hd with ⟨h₁, h₂⟩
  rw [h₁, escapeUnderscores_injective h₂]

/-- Concrete instance of the amended claim C1 at the name `"a/b"`. -/
theorem convert_name_injective_on_realistic_names_witness :
    String.mk (['a'] ++ '/' :: ['b']) = String.mk (['a'] ++ '/' :: ['b']) :=
  convert_name_injective_on_realistic_names ['a'] ['b'] ['a'] ['b']
    (by decide) (by decide) (by decide) (by decide) (by decide) (by decide) rfl

/-! ### The repo syncer

`syncrepo(github_repo, gitlab_repo, namespace, name)` (lines 124-148) runs a
fixed sequence of externally visible steps inside a `try` block and converts
any exception into `False`.  We embed it as a function over a `World` that
supplies the outcome of each external call, returning the ordered list of
attempted external actions together with the result.  A failing call is still
recorded (the HTTP request or subprocess was issued) but aborts the remaining
steps, mirroring Python exception propagation up to the `try`. -/

/-- `path = f"repos/{name}"` (line 133). -/
def repoPath (name : String) : String := "repos/" ++ name

/-- `f'git -C "{path}" fetch'` (line 136). -/
def gitFetch (path : String) : String := "git -C \"" ++ path ++ "\" fetch"

/-- `f'git clone --bare "{github_repo.url}" "{path}"'` (line 141). -/
def gitClone (url path : String) : String := "git clone --bare \"" ++ url ++ "\" \"" ++ path ++ "\""

/-- `f'git -C "{path}" push --all "{gitlab_repo.url}"'` (line 143). -/
def gitPushAll (path url : String) : String := "git -C \"" ++ path ++ "\" push --all \"" ++ url ++ "\""

/-- `f'git -C "{path}" push --tags "{gitlab_repo.url}"'` (line 144). -/
def gitPushTags (path url : String) : String := "git -C \"" ++ path ++ "\" push --tags \"" ++ url ++ "\""

/-- One externally visible effect of `syncrepo`: a GitLab project-creation
request, a GitLab description-update request, a directory creation
(`os.makedirs`), or an external git command (`run_command`). -/
inductive Action where
  | create_gitlab_repo (ns : Nat) (name : String)
  | set_gitlab_repo_description (repo_id : Nat) (description : Option String)
  | makedirs (path : String)
  | run_command (command : String)
deriving DecidableEq, Repr

/-- Outcomes of the external calls `syncrepo` can make.  `Except.error ()`
models a raised exception (`raise_for_status`, `subprocess.run(check=True)`,
or a filesystem error). -/
structure World where
  create_gitlab_repo : Nat → String → Except Unit Repo
  set_gitlab_repo_description : Nat → Option String → Except Unit Unit
  path_exists : String → Bool
  makedirs : String → Except Unit Unit
  run_command : String → Except Unit Unit

/-- Steps 4-5 of `syncrepo` (lines 142-144): push all branches, then push
tags, to the GitLab clone URL. -/
def pushPhase (w : World) (gitlab_repo : Repo) (path : String) (acts : List Action) :
    List Action × Except Unit Unit :=
  match w.run_command (gitPushAll path gitlab_repo.url) with
  | .error e => (acts ++ [Action.run_command (gitPushAll path gitlab_repo.url)], .error e)
  | .ok _ =>
    match w.run_command (gitPushTags path gitlab_repo.url) with
    | .error e => (acts ++ [Action.run_command (gitPushAll path gitlab_repo.url),
        Action.run_command (gitPushTags path gitlab_repo.url)], .error e)
    | .ok _ => (acts ++ [Action.run_command (gitPushAll path gitlab_repo.url),
        Action.run_command (gitPushTags path gitlab_repo.url)], .ok ())

/-- Step 3 of `syncrepo` (lines 133-141): if `repos/{name}/HEAD` exists, fetch
into the existing mirror; else `os.makedirs(path, exist_ok=True)` and bare
clone.  Then the push phase. -/
def mirrorPhase (w : World) (github_repo gitlab_repo : Repo) (name : String) (acts : List Action) :
    List Action × Except Unit Unit :=
  if w.path_exists (repoPath name ++ "/HEAD") then
    match w.run_command (gitFetch (repoPath name)) with
    | .error e => (acts ++ [Action.run_command (gitFetch (repoPath name))], .error e)
    | .ok _ => pushPhase w gitlab_repo (repoPath name)
        (acts ++ [Action.run_command (gitFetch (repoPath name))])
  else
    match w.makedirs (repoPath name) with
    | .error e => (acts ++ [Action.makedirs (repoPath name)], .error e)
    | .ok _ =>
      match w.run_command (gitClone github_repo.url (repoPath name)) with
      | .error e => (acts ++ [Action.makedirs (repoPath name),
          Action.run_command (gitClone github_repo.url (repoPath name))], .error e)
      | .ok _ => pushPhase w gitlab_repo (repoPath name)
          (acts ++ [Action.makedirs (repoPath name),
            Action.run_command (gitClone github_repo.url (repoPath name))])

/-- Step 2 of `syncrepo` (lines 130-132): if the descriptions differ under
plain `!=` (no normalisation of `None` vs `""`), update the GitLab
description with the GitHub one.  Then the mirror phase. -/
def descPhase (w : World) (github_repo gitlab_repo : Repo) (name : String) (acts : List Action) :
    List Action × Except Unit Unit :=
  if gitlab_repo.description ≠ github_repo.description then
    match w.set_gitlab_repo_description gitlab_repo.id github_repo.description with
    | .error e => (acts ++ [Action.set_gitlab_repo_description gitlab_repo.id
        github_repo.description], .error e)
    | .ok _ => mirrorPhase w github_repo gitlab_repo name
        (acts ++ [Action.set_gitlab_repo_description gitlab_repo.id github_repo.description])
  else mirrorPhase w github_repo gitlab_repo name acts

/-- The body of `syncrepo`'s `try` block (lines 126-145): step 1 creates the
GitLab repo when `gitlab_repo is None` and uses the created record from then
on; an exception propagates as `Except.error`. -/
def syncrepoBody (w : World) (github_repo : Repo) (gitlab_repo : Option Repo)
    (ns : Nat) (name : String) : List Action × Except Unit Unit :=
  match gitlab_repo with
  | none =>
    match w.create_gitlab_repo ns name with
    | .error e => ([Action.create_gitlab_repo ns name], .error e)
    | .ok created => descPhase w github_repo created name [Action.create_gitlab_repo ns name]
  | some gl => descPhase w github_repo gl name []

/-- `syncrepo` (lines 124-148): the `try`/`except` wrapper returns `True` on
success and logs-and-returns `False` on any exception. -/
def syncrepo (w : World) (github_repo : Repo) (gitlab_repo : Option Repo)
    (ns : Nat) (name : String) : List Action × Bool :=
  match syncrepoBody w github_repo gitlab_repo ns name with
  | (acts, .ok _) => (acts, true)
  | (acts, .error _) => (acts, false)

theorem syncrepo_fst (w : World) (gh : Repo) (gl : Option Repo) (ns : Nat) (name : String) :
    (syncrepo w gh gl ns name).1 = (syncrepoBody w gh gl ns name).1 := by
  unfold syncrepo
  rcases syncrepoBody w gh gl ns name with ⟨acts, r⟩
  cases r <;> rfl

/-- The description-update requests (repo id, new description) recorded in a
trace, in order. -/
def setDescCalls (acts : List Action) : List (Nat × Option String) :=
  acts.filterMap fun a =>
    match a with
    | .set_gitlab_repo_description i d => some (i, d)
    | _ => none

/-- The project-creation requests (namespace id, path) recorded in a trace,
in order. -/
def createCalls (acts : List Action) : List (Nat × String) :=
  acts.filterMap fun a =>
    match a with
    | .create_gitlab_repo n s => some (n, s)
    | _ => none

@[simp] theorem setDescCalls_nil : setDescCalls [] = [] := rfl

@[simp] theorem setDescCalls_append (a b : List Action) :
    setDescCalls (a ++ b) = setDescCalls a ++ setDescCalls b := by
  simp [setDescCalls]

@[simp] theorem setDescCalls_cons_run (c : String) (l : List Action) :
    setDescCalls (Action.run_command c :: l) = setDescCalls l := rfl

@[simp] theorem setDescCalls_cons_makedirs (p : String) (l : List Action) :
    setDescCalls (Action.makedirs p :: l) = setDescCalls l := rfl

@[simp] theorem setDescCalls_cons_create (n : Nat) (s : String) (l : List Action) :
    setDescCalls (Action.create_gitlab_repo n s :: l) = setDescCalls l := rfl

@[simp] theorem setDescCalls_cons_set (i : Nat) (d : Option String) (l : List Action) :
    setDescCalls (Action.set_gitlab_repo_description i d :: l) = (i, d) :: setDescCalls l := rfl

@[simp] theorem createCalls_nil : createCalls [] = [] := rfl

@[simp] theorem createCalls_append (a b : List Action) :
    createCalls (a ++ b) = createCalls a ++ createCalls b := by
  simp [createCalls]

@[simp] theorem createCalls_cons_run (c : String) (l : List Action) :
    createCalls (Action.run_command c :: l) = createCalls l := rfl

@[simp] theorem createCalls_cons_makedirs (p : String) (l : List Action) :
    createCalls (Action.makedirs p :: l) = createCalls l := rfl

@[simp] theorem createCalls_cons_set (i : Nat) (d : Option String) (l : List Action) :
    createCalls (Action.set_gitlab_repo_description i d :: l) = createCalls l := rfl

@[simp] theorem createCalls_cons_create (n : Nat) (s : String) (l : List Action) :
    createCalls (Action.create_gitlab_repo n s :: l) = (n, s) :: createCalls l := rfl

theorem setDescCalls_pushPhase (w : World) (gl : Repo) (path : String) (acts : List Action) :
    setDescCalls (pushPhase w gl path acts).1 = setDescCalls acts := by
  unfold pushPhase
  cases w.run_command (gitPushAll path gl.url) with
  | error e => simp
  | ok u =>
    cases w.run_command (gitPushTags path gl.url) with
    | error e => simp
    | ok u => simp

theorem setDescCalls_mirrorPhase (w : World) (gh gl : Repo) (name : String) (acts : List Action) :
    setDescCalls (mirrorPhase w gh gl name acts).1 = setDescCalls acts := by
  unfold mirrorPhase
  cases w.path_exists (repoPath name ++ "/HEAD") with
  | true =>
    cases w.run_command (gitFetch (repoPath name)) with
    | error e => simp
    | ok u => simp [setDescCalls_pushPhase]
  | false =>
    cases w.makedirs (repoPath name) with
    | error e => simp
    | ok u =>
      cases w.run_command (gitClone gh.url (repoPath name)) with
      | error e => simp
      | ok u => simp [setDescCalls_pushPhase]

theorem setDescCalls_descPhase (w : World) (gh gl : Repo) (name : String) (acts : List Action) :
    setDescCalls (descPhase w gh gl name acts).1
      = setDescCalls acts
        ++ (if gl.description = gh.description then [] else [(gl.id, gh.description)]) := by
  unfold descPhase
  by_cases hd : gl.description = gh.description
  · rw [if_neg (not_not_intro hd), setDescCalls_mirrorPhase, if_pos hd, List.append_nil]
  · rw [if_pos hd, if_neg hd]
    cases w.set_gitlab_repo_description gl.id gh.description with
    | error e => simp
    | ok u => simp [setDescCalls_mirrorPhase]

/-- Claim C2: `syncrepo` issues the description update exactly once, with the
GitHub description as argument, when the working GitLab record's description
differs from the GitHub one under plain (un-normalised) equality of
`Option String`, and issues it zero times when they are equal.  The working
record is the given `gitlab_repo` when present, else the record returned by
the creation call; when the creation call itself fails no update is issued. -/
theorem setDescription_trigger (w : World) (github_repo : Repo) (ns : Nat) (name : String) :
    (∀ gl : Repo,
      setDescCalls (syncrepo w github_repo (some gl) ns name).1
        = if gl.description = github_repo.description then []
          else [(gl.id, github_repo.description)])
    ∧ (∀ created : Repo, w.create_gitlab_repo ns name = Except.ok created →
      setDescCalls (syncrepo w github_repo none ns name).1
        = if created.description = github_repo.description then []
          else [(created.id, github_repo.description)])
    ∧ (w.create_gitlab_repo ns name = Except.error () →
      setDescCalls (syncrepo w github_repo none ns name).1 = []) := by
  refine ⟨?_, ?_, ?_⟩
  · intro gl
    rw [syncrepo_fst]
    unfold syncrepoBody
    rw [setDescCalls_descPhase]
    simp
  · intro created hc
    rw [syncrepo_fst]
    unfold syncrepoBody
    rw [hc, setDescCalls_descPhase]
    simp
  · intro hc
    rw [syncrepo_fst]
    unfold syncrepoBody
    rw [hc]
    simp [setDescCalls]

/-- Example GitHub record: description `"A project"`. -/
def exGithubRepo : Repo := ⟨"owner/proj", "https://github.example/owner/proj.git",
  some "A project", 11⟩

/-- Example GitLab record: empty (but present) description `""`. -/
def exGitlabRepo : Repo := ⟨"owner__proj", "git@gitlab.example:g/owner__proj.git",
  some "", 5⟩

/-- A world in which every external call succeeds and the mirror exists. -/
def exWorld : World where
  create_gitlab_repo := fun _ s => Except.ok ⟨s, "git@gitlab.example:g/new.git", none, 7⟩
  set_gitlab_repo_description := fun _ _ => Except.ok ()
  path_exists := fun _ => true
  makedirs := fun _ => Except.ok ()
  run_command := fun _ => Except.ok ()

/-- Witness for claim C2, at the spec's example: destination description `""`
versus source description `"A project"` triggers exactly one update call
carrying `"A project"`. -/
theorem setDescription_trigger_witness :
    setDescCalls (syncrepo exWorld exGithubRepo (some exGitlabRepo) 1 "owner__proj").1
      = [(5, some "A project")] := by
  rw [(setDescription_trigger exWorld exGithubRepo 1 "owner__proj").1 exGitlabRepo]
  decide

/-! ### The paginated listers

`get_github_stars` (lines 19-45) and `get_gitlab_repos` (lines 57-84) run the
same loop: `page = 1`; request that page (`per_page=100`); if the response is
nonempty, extend the accumulator and increment `page`; else return the
accumulator.  We abstract one successful HTTP request plus JSON-to-`Repo`
conversion as `pages : Nat → List Repo` and make the loop total with fuel
(`none` = the loop did not finish within `fuel` requests).  The result also
carries the number of requests issued. -/

/-- The shared pagination loop.  Arguments after `pages`:
fuel, current page, accumulator, requests issued so far. -/
def paginate (pages : Nat → List Repo) : Nat → Nat → List Repo → Nat → Option (List Repo × Nat)
  | 0, _, _, _ => none
  | fuel + 1, page, acc, reqs =>
    if pages page = [] then some (acc, reqs + 1)
    else paginate pages fuel (page + 1) (acc ++ pages page) (reqs + 1)

/-- `get_github_stars(github_user)` (lines 19-45), abstracted over the pages
the GitHub API returns for that user. -/
def get_github_stars (pages : Nat → List Repo) (fuel : Nat) : Option (List Repo × Nat) :=
  paginate pages fuel 1 [] 0

/-- `get_gitlab_repos()` (lines 57-84), abstracted over the pages the GitLab
API returns for the configured group. -/
def get_gitlab_repos (pages : Nat → List Repo) (fuel : Nat) : Option (List Repo × Nat) :=
  paginate pages fuel 1 [] 0

/-- Full characterisation of a finished pagination loop: it made `k + 1`
further requests for the consecutive pages `page, page+1, …`, the last
requested page is the first empty one, and the result accumulates every
record of the non-empty pages in order. -/
theorem paginate_spec (pages : Nat → List Repo) :
    ∀ (fuel page reqs : Nat) (acc stars : List Repo) (total : Nat),
      paginate pages fuel page acc reqs = some (stars, total) →
      ∃ k, total = reqs + k + 1
        ∧ stars = acc ++ ((List.range' page k).map pages).flatten
        ∧ pages (page + k) = []
        ∧ ∀ i < k, pages (page + i) ≠ [] := by
  intro fuel
  induction fuel with
  | zero => intro page reqs acc stars total h; simp [paginate] at h
  | succ fuel ih =>
    intro page reqs acc stars total h
    rw [paginate] at h
    by_cases hp : pages page = []
    · rw [if_pos hp] at h
      injection h with h
      injection h with h₁ h₂
      refine ⟨0, by omega, ?_, by simpa using hp, ?_⟩
      · simpa using h₁.symm
      · intro i hi
        exact absurd hi (Nat.not_lt_zero i)
    · rw [if_neg hp] at h
      rcases ih (page + 1) (reqs + 1) (acc ++ pages page) stars total h
        with ⟨k, hk₁, hk₂, hk₃, hk₄⟩
      refine ⟨k + 1, by omega, ?_, ?_, ?_⟩
      · rw [hk₂, List.range'_succ]
        simp
      · rw [show page + (k + 1) = page + 1 + k by omega]
        exact hk₃
      · intro i hi
        cases i with
        | zero => simpa using hp
        | succ j =>
          rw [show page + (j + 1) = page + 1 + j by omega]
          exact hk₄ j (by omega)

/-- Claim C3: each lister starts at page 1 and increments the page number
until a page comes back empty, accumulating every record in order; in
particular with successive page sizes 100, 100, 37, 0 it issues exactly 4
requests and returns 237 records. -/
theorem pagination_terminates :
    (∀ (pages : Nat → List Repo) (fuel : Nat) (stars : List Repo) (total : Nat),
      get_github_stars pages fuel = some (stars, total) →
      1 ≤ total ∧ pages total = []
        ∧ (∀ i, 1 ≤ i → i < total → pages i ≠ [])
        ∧ stars = ((List.range' 1 (total - 1)).map pages).flatten)
    ∧ (∀ (pages : Nat → List Repo) (fuel : Nat) (stars : List Repo) (total : Nat),
      get_gitlab_repos pages fuel = some (stars, total) →
      1 ≤ total ∧ pages total = []
        ∧ (∀ i, 1 ≤ i → i < total → pages i ≠ [])
        ∧ stars = ((List.range' 1 (total - 1)).map pages).flatten)
    ∧ (∀ pages : Nat → List Repo,
      (pages 1).length = 100 → (pages 2).length = 100 →
      (pages 3).length = 37 → pages 4 = [] →
      ∃ stars, get_github_stars pages 4 = some (stars, 4)
        ∧ get_gitlab_repos pages 4 = some (stars, 4) ∧ stars.length = 237) := by
  have main : ∀ (pages : Nat → List Repo) (fuel : Nat) (stars : List Repo) (total : Nat),
      paginate pages fuel 1 [] 0 = some (stars, total) →
      1 ≤ total ∧ pages total = []
        ∧ (∀ i, 1 ≤ i → i < total → pages i ≠ [])
        ∧ stars = ((List.range' 1 (total - 1)).map pages).flatten := by
    intro pages fuel stars total h
    rcases paginate_spec pages fuel 1 0 [] stars total h with ⟨k, hk₁, hk₂, hk₃, hk₄⟩
    refine ⟨by omega, ?_, ?_, ?_⟩
    · rw [show total = 1 + k by omega]; exact hk₃
    · intro i h1i hik
      rw [show i = 1 + (i - 1) by omega]
      exact hk₄ (i - 1) (by omega)
    · rw [show total - 1 = k by omega]
      simpa using hk₂
  refine ⟨fun pages fuel => main pages fuel, fun pages fuel => main pages fuel, ?_⟩
  intro pages h1 h2 h3 h4
  have hne1 : pages 1 ≠ [] := by intro h; rw [h] at h1; simp at h1
  have hne2 : pages 2 ≠ [] := by intro h; rw [h] at h2; simp at h2
  have hne3 : pages 3 ≠ [] := by intro h; rw [h] at h3; simp at h3
  refine ⟨pages 1 ++ (pages 2 ++ pages 3), ?_, ?_, ?_⟩
  · simp [get_github_stars, paginate, hne1, hne2, hne3, h4]
  · simp [get_gitlab_repos, paginate, hne1, hne2, hne3, h4]
  · simp [h1, h2, h3]

/-- Page sizes 100, 100, 37 and then empty, as in the spec's example. -/
def exPages : Nat → List Repo := fun n =>
  if n = 1 then List.replicate 100 exGithubRepo
  else if n = 2 then List.replicate 100 exGithubRepo
  else if n = 3 then List.replicate 37 exGithubRepo
  else []

/-- Witness for claim C3 at concrete pages of sizes 100, 100, 37, 0. -/
theorem pagination_terminates_witness :
    ∃ stars, get_github_stars exPages 4 = some (stars, 4)
      ∧ get_gitlab_repos exPages 4 = some (stars, 4) ∧ stars.length = 237 :=
  pagination_terminates.2.2 exPages (by simp [exPages]) (by simp [exPages])
    (by simp [exPages]) (by simp [exPages])

/-! ### The orchestrator

`sync()` (lines 151-175): union the stars of all users into a set, sort by
name, index the GitLab repos by name (a dict, later entries overwriting),
build one task per GitHub star, run `syncrepo` on each task (the process pool
is modelled as an order-preserving map, one boolean per task), and report
`sum(results)` together with the names of the failed tasks. -/

/-- One task tuple `(github_repo, gitlab_repo, namespace, name)` (line 168). -/
abbrev Task := Repo × Option Repo × Nat × String

/-- Lines 152-156: `set()` union over the per-user star lists (deduplication
by full record equality) followed by `sorted(..., key=lambda repo: repo.name)`. -/
def aggregateStars (starsPerUser : List (List Repo)) : List Repo :=
  List.mergeSort starsPerUser.flatten.dedup (fun a b => decide (a.name ≤ b.name))

/-- Line 161 (`{repo.name: repo for repo in gitlab_repos}`) combined with
line 167 (`gitlab_repos[name] if name in gitlab_repos else None`): a later
entry with the same name overwrites an earlier one. -/
def lookupName (repos : List Repo) (name : String) : Option Repo :=
  repos.reverse.find? (fun r => r.name == name)

/-- Lines 164-168: one task per (sorted, deduplicated) GitHub star. -/
def buildTasks (github_stars gitlab_repos : List Repo) (ns : Nat) : List Task :=
  github_stars.map fun gh =>
    (gh, lookupName gitlab_repos (convert_name gh.name), ns, convert_name gh.name)

/-- Run `syncrepo` on one task tuple, keeping only the boolean result. -/
def runTask (w : World) (t : Task) : Bool :=
  (syncrepo w t.1 t.2.1 t.2.2.1 t.2.2.2).2

/-- Line 171: `pool.starmap(syncrepo, tasks, chunksize=1)` — one boolean per
task, in task order. -/
def runTasks (w : World) (tasks : List Task) : List Bool :=
  tasks.map (runTask w)

/-- Line 172: `sum(results)` over Python booleans counts the `True`s. -/
def sumResults (results : List Bool) : Nat :=
  (results.filter (fun b => b)).length

/-- Line 173: the source names of the tasks whose result is falsy. -/
def failedNames (tasks : List Task) (results : List Bool) : List String :=
  ((tasks.zip results).filter (fun p => !p.2)).map (fun p => p.1.1.name)

/-- `sync()` (lines 151-175): returns (success tally, number of results,
failed source names). -/
def sync (w : World) (starsPerUser : List (List Repo)) (gitlab_repos : List Repo)
    (ns : Nat) : Nat × Nat × List String :=
  let github_stars := aggregateStars starsPerUser
  let tasks := buildTasks github_stars gitlab_repos ns
  let results := runTasks w tasks
  (sumResults results, results.length, failedNames tasks results)

/-- Claim C4: a failure inside `syncrepo` never escapes: the result is
`false` exactly when the body raised; the orchestrator collects one
independent boolean per task; and with 10 tasks of which exactly the 5th
fails, every other task still gets its result and the tally is 9 with the
5th task's source name reported as failed. -/
theorem failure_isolation :
    (∀ (w : World) (gh : Repo) (gl : Option Repo) (ns : Nat) (name : String),
      (syncrepo w gh gl ns name).2 = false
        ↔ (syncrepoBody w gh gl ns name).2 = Except.error ())
    ∧ (∀ (w : World) (tasks : List Task),
      (runTasks w tasks).length = tasks.length
        ∧ ∀ i : Nat, (runTasks w tasks)[i]? = (tasks[i]?).map (runTask w))
    ∧ (∀ (w : World) (t₁ t₂ t₃ t₄ t₅ t₆ t₇ t₈ t₉ t₁₀ : Task),
      runTask w t₅ = false →
      runTask w t₁ = true → runTask w t₂ = true → runTask w t₃ = true →
      runTask w t₄ = true → runTask w t₆ = true → runTask w t₇ = true →
      runTask w t₈ = true → runTask w t₉ = true → runTask w t₁₀ = true →
      runTasks w [t₁, t₂, t₃, t₄, t₅, t₆, t₇, t₈, t₉, t₁₀]
          = [true, true, true, true, false, true, true, true, true, true]
        ∧ sumResults (runTasks w [t₁, t₂, t₃, t₄, t₅, t₆, t₇, t₈, t₉, t₁₀]) = 9
        ∧ failedNames [t₁, t₂, t₃, t₄, t₅, t₆, t₇, t₈, t₉, t₁₀]
            (runTasks w [t₁, t₂, t₃, t₄, t₅, t₆, t₇, t₈, t₉, t₁₀]) = [t₅.1.name]) := by
  refine ⟨?_, ?_, ?_⟩
  · intro w gh gl ns name
    unfold syncrepo
    rcases syncrepoBody w gh gl ns name with ⟨acts, r⟩
    cases r with
    | error e => simp
    | ok u => simp
  · intro w tasks
    refine ⟨by simp [runTasks], ?_⟩
    intro i
    simp [runTasks]
  · intro w t₁ t₂ t₃ t₄ t₅ t₆ t₇ t₈ t₉ t₁₀ h5 h1 h2 h3 h4 h6 h7 h8 h9 h10
    have hr : runTasks w [t₁, t₂, t₃, t₄, t₅, t₆, t₇, t₈, t₉, t₁₀]
        = [true, true, true, true, false, true, true, true, true, true] := by
      simp [runTasks, h1, h2, h3, h4, h5, h6, h7, h8, h9, h10]
    refine ⟨hr, ?_, ?_⟩
    · rw [hr]; rfl
    · rw [hr]; rfl

/-- A world in which exactly the fetch of the mirror named `"bad"` fails. -/
def exFailWorld : World where
  create_gitlab_repo := fun _ s => Except.ok ⟨s, "git@gitlab.example:g/r.git", none, 7⟩
  set_gitlab_repo_description := fun _ _ => Except.ok ()
  path_exists := fun _ => true
  makedirs := fun _ => Except.ok ()
  run_command := fun c => if c = gitFetch (repoPath "bad") then Except.error () else Except.ok ()

/-- A task whose mapped name is `name`, destination present, descriptions
equal. -/
def exTask (name : String) : Task :=
  (⟨"o/" ++ name, "https://github.example/o.git", none, 1⟩,
    some ⟨name, "git@gitlab.example:g.git", none, 2⟩, 9, name)

/-- Witness for claim C4: ten concrete tasks of which exactly the 5th fails. -/
theorem failure_isolation_witness :
    runTasks exFailWorld [exTask "a1", exTask "a2", exTask "a3", exTask "a4", exTask "bad",
        exTask "a6", exTask "a7", exTask "a8", exTask "a9", exTask "a10"]
      = [true, true, true, true, false, true, true, true, true, true]
    ∧ sumResults (runTasks exFailWorld [exTask "a1", exTask "a2", exTask "a3", exTask "a4",
        exTask "bad", exTask "a6", exTask "a7", exTask "a8", exTask "a9", exTask "a10"]) = 9
    ∧ failedNames [exTask "a1", exTask "a2", exTask "a3", exTask "a4", exTask "bad",
        exTask "a6", exTask "a7", exTask "a8", exTask "a9", exTask "a10"]
        (runTasks exFailWorld [exTask "a1", exTask "a2", exTask "a3", exTask "a4", exTask "bad",
          exTask "a6", exTask "a7", exTask "a8", exTask "a9", exTask "a10"])
      = [(exTask "bad").1.name] :=
  failure_isolation.2.2 exFailWorld (exTask "a1") (exTask "a2") (exTask "a3") (exTask "a4")
    (exTask "bad") (exTask "a6") (exTask "a7") (exTask "a8") (exTask "a9") (exTask "a10")
    (by decide) (by decide) (by decide) (by decide) (by decide) (by decide) (by decide)
    (by decide) (by decide) (by decide)

/-- Claim C7: aggregation across accounts deduplicates by full record
equality (a record present in several accounts' lists survives exactly
once), the aggregate is sorted by name in ascending order, and the task list
processes exactly the aggregated records in that order. -/
theorem dedup_and_sort (starsPerUser : List (List Repo)) :
    (∀ r : Repo, r ∈ starsPerUser.flatten → (aggregateStars starsPerUser).count r = 1)
    ∧ (aggregateStars starsPerUser).Pairwise (fun a b => a.name ≤ b.name)
    ∧ (∀ (gitlab_repos : List Repo) (ns : Nat),
      (buildTasks (aggregateStars starsPerUser) gitlab_repos ns).map (fun t => t.1)
        = aggregateStars starsPerUser) := by
  refine ⟨?_, ?_, ?_⟩
  · intro r hr
    rw [aggregateStars, (List.mergeSort_perm _ _).count_eq, List.count_dedup, if_pos hr]
  · have hs := @List.sorted_mergeSort Repo
      (fun a b : Repo => decide (a.name ≤ b.name))
      (fun a b c h₁ h₂ => by
        simp only [decide_eq_true_eq] at h₁ h₂ ⊢
        exact le_trans h₁ h₂)
      (fun a b => by
        simp only [Bool.or_eq_true, decide_eq_true_eq]
        exact le_total a.name b.name)
      starsPerUser.flatten.dedup
    rw [aggregateStars]
    exact hs.imp (fun h => of_decide_eq_true h)
  · intro gitlab_repos ns
    simp only [buildTasks, List.map_map]
    rw [show ((fun t : Task => t.1) ∘ fun gh : Repo =>
      (gh, lookupName gitlab_repos (convert_name gh.name), ns, convert_name gh.name)) = id
      from rfl]
    exact List.map_id _

/-- Witness for claim C7: the same record starred by two accounts survives
exactly once. -/
theorem dedup_and_sort_witness :
    (aggregateStars [[exGithubRepo], [exGithubRepo]]).count exGithubRepo = 1 :=
  (dedup_and_sort [[exGithubRepo], [exGithubRepo]]).1 exGithubRepo (by simp)

/-- Claim C5: a re-sync of an unchanged repository — destination present with
an equal description, local mirror already cloned — performs no creation
call and no description-update call: its trace is fetch alone, or fetch plus
the pushes, depending only on where a git command fails. -/
theorem resync_idempotent (w : World) (gh gl : Repo) (ns : Nat) (name : String)
    (hdesc : gl.description = gh.description)
    (hex : w.path_exists (repoPath name ++ "/HEAD") = true) :
    createCalls (syncrepo w gh (some gl) ns name).1 = []
    ∧ setDescCalls (syncrepo w gh (some gl) ns name).1 = []
    ∧ ((syncrepo w gh (some gl) ns name).1
        = [Action.run_command (gitFetch (repoPath name))]
      ∨ (syncrepo w gh (some gl) ns name).1
        = [Action.run_command (gitFetch (repoPath name)),
           Action.run_command (gitPushAll (repoPath name) gl.url)]
      ∨ (syncrepo w gh (some gl) ns name).1
        = [Action.run_command (gitFetch (repoPath name)),
           Action.run_command (gitPushAll (repoPath name) gl.url),
           Action.run_command (gitPushTags (repoPath name) gl.url)]) := by
  have tr : (syncrepo w gh (some gl) ns name).1
      = [Action.run_command (gitFetch (repoPath name))]
    ∨ (syncrepo w gh (some gl) ns name).1
      = [Action.run_command (gitFetch (repoPath name)),
         Action.run_command (gitPushAll (repoPath name) gl.url)]
    ∨ (syncrepo w gh (some gl) ns name).1
      = [Action.run_command (gitFetch (repoPath name)),
         Action.run_command (gitPushAll (repoPath name) gl.url),
         Action.run_command (gitPushTags (repoPath name) gl.url)] := by
    rw [syncrepo_fst]
    simp only [syncrepoBody, descPhase, if_neg (not_not_intro hdesc)]
    simp only [mirrorPhase, hex, if_pos rfl]
    cases hf : w.run_command (gitFetch (repoPath name)) with
    | error e => simp
    | ok u =>
      simp only [pushPhase]
      cases hpa : w.run_command (gitPushAll (repoPath name) gl.url) with
      | error e => simp
      | ok u =>
        cases hpt : w.run_command (gitPushTags (repoPath name) gl.url) with
        | error e => simp
        | ok u => simp
  refine ⟨?_, ?_, tr⟩
  · rcases tr with h | h | h <;> rw [h] <;> rfl
  · rcases tr with h | h | h <;> rw [h] <;> rfl

/-- Example GitLab record whose description equals the GitHub one. -/
def exGitlabRepoSame : Repo := ⟨"owner__proj", "git@gitlab.example:g/owner__proj.git",
  some "A project", 5⟩

/-- Witness for claim C5: a concrete unchanged repository with existing
mirror performs zero creation calls. -/
theorem resync_idempotent_witness :
    createCalls (syncrepo exWorld exGithubRepo (some exGitlabRepoSame) 1 "owner__proj").1 = [] :=
  (resync_idempotent exWorld exGithubRepo exGitlabRepoSame 1 "owner__proj" rfl rfl).1

/-! ### Distinctness of the four git command strings

Used to state that a sync which fetches runs no clone, and vice versa.
The clone command differs from the `git -C`-style commands in its 5th
character, and the fetch command differs from the push commands in its last
character, whatever the interpolated url/path values are. -/

theorem gitClone_get4 (u p : String) : (gitClone u p).data[4]? = some 'c' := by
  unfold gitClone
  simp only [String.data_append, List.append_assoc]
  rw [List.getElem?_append_left (by decide)]
  decide

theorem gitFetch_get4 (p : String) : (gitFetch p).data[4]? = some '-' := by
  unfold gitFetch
  simp only [String.data_append, List.append_assoc]
  rw [List.getElem?_append_left (by decide)]
  decide

theorem gitPushAll_get4 (p u : String) : (gitPushAll p u).data[4]? = some '-' := by
  unfold gitPushAll
  simp only [String.data_append, List.append_assoc]
  rw [List.getElem?_append_left (by decide)]
  decide

theorem gitPushTags_get4 (p u : String) : (gitPushTags p u).data[4]? = some '-' := by
  unfold gitPushTags
  simp only [String.data_append, List.append_assoc]
  rw [List.getElem?_append_left (by decide)]
  decide

theorem gitFetch_getLast (p : String) : (gitFetch p).data.getLast? = some 'h' := by
  unfold gitFetch
  simp only [String.data_append, List.getLast?_append]
  rfl

theorem gitPushAll_getLast (p u : String) : (gitPushAll p u).data.getLast? = some '"' := by
  unfold gitPushAll
  simp only [String.data_append, List.getLast?_append]
  rfl

theorem gitPushTags_getLast (p u : String) : (gitPushTags p u).data.getLast? = some '"' := by
  unfold gitPushTags
  simp only [String.data_append, List.getLast?_append]
  rfl

theorem gitClone_ne_gitFetch (u p q : String) : gitClone u p ≠ gitFetch q := by
  intro h
  have h4 : (gitClone u p).data[4]? = (gitFetch q).data[4]? := by rw [h]
  rw [gitClone_get4, gitFetch_get4] at h4
  exact absurd h4 (by decide)

theorem gitClone_ne_gitPushAll (u p q r : String) : gitClone u p ≠ gitPushAll q r := by
  intro h
  have h4 : (gitClone u p).data[4]? = (gitPushAll q r).data[4]? := by rw [h]
  rw [gitClone_get4, gitPushAll_get4] at h4
  exact absurd h4 (by decide)

theorem gitClone_ne_gitPushTags (u p q r : String) : gitClone u p ≠ gitPushTags q r := by
  intro h
  have h4 : (gitClone u p).data[4]? = (gitPushTags q r).data[4]? := by rw [h]
  rw [gitClone_get4, gitPushTags_get4] at h4
  exact absurd h4 (by decide)

theorem gitFetch_ne_gitPushAll (p q r : String) : gitFetch p ≠ gitPushAll q r := by
  intro h
  have hl : (gitFetch p).data.getLast? = (gitPushAll q r).data.getLast? := by rw [h]
  rw [gitFetch_getLast, gitPushAll_getLast] at hl
  exact absurd hl (by decide)

theorem gitFetch_ne_gitPushTags (p q r : String) : gitFetch p ≠ gitPushTags q r := by
  intro h
  have hl : (gitFetch p).data.getLast? = (gitPushTags q r).data.getLast? := by rw [h]
  rw [gitFetch_getLast, gitPushTags_getLast] at hl
  exact absurd hl (by decide)

/-! ### Trace structure of the phases -/

theorem pushPhase_extend (w : World) (gl : Repo) (path : String) (acts : List Action) :
    (pushPhase w gl path acts).1 = acts ++ (pushPhase w gl path []).1 := by
  unfold pushPhase
  cases w.run_command (gitPushAll path gl.url) with
  | error e => simp
  | ok u =>
    cases w.run_command (gitPushTags path gl.url) with
    | error e => simp
    | ok u => simp

theorem mirrorPhase_extend (w : World) (gh gl : Repo) (name : String) (acts : List Action) :
    (mirrorPhase w gh gl name acts).1 = acts ++ (mirrorPhase w gh gl name []).1 := by
  unfold mirrorPhase
  cases hpe : w.path_exists (repoPath name ++ "/HEAD") with
  | true =>
    cases hf : w.run_command (gitFetch (repoPath name)) with
    | error e => simp
    | ok u =>
      simp only [pushPhase]
      cases hpa : w.run_command (gitPushAll (repoPath name) gl.url) with
      | error e => simp
      | ok u =>
        cases hpt : w.run_command (gitPushTags (repoPath name) gl.url) with
        | error e => simp
        | ok u => simp
  | false =>
    cases hm : w.makedirs (repoPath name) with
    | error e => simp
    | ok u =>
      cases hcl : w.run_command (gitClone gh.url (repoPath name)) with
      | error e => simp
      | ok u =>
        simp only [pushPhase]
        cases hpa : w.run_command (gitPushAll (repoPath name) gl.url) with
        | error e => simp
        | ok u =>
          cases hpt : w.run_command (gitPushTags (repoPath name) gl.url) with
          | error e => simp
          | ok u => simp

/-- With steps 1-2 passed, the body's trace is the step-1/2 actions followed
by the mirror-phase trace; the step-1/2 actions are only creation and
description-update requests. -/
theorem body_reach_mirror (w : World) (gh : Repo) (glOpt : Option Repo) (ns : Nat)
    (name : String) (gl : Repo)
    (hwork : (match glOpt with
      | some g => Except.ok g
      | none => w.create_gitlab_repo ns name) = Except.ok gl)
    (hdesc : gl.description ≠ gh.description →
      w.set_gitlab_repo_description gl.id gh.description = Except.ok ()) :
    ∃ pre, (syncrepoBody w gh glOpt ns name).1 = pre ++ (mirrorPhase w gh gl name []).1
      ∧ ∀ a ∈ pre, a = Action.create_gitlab_repo ns name
        ∨ a = Action.set_gitlab_repo_description gl.id gh.description := by
  have hdescPhase : ∀ acts, ∃ pre,
      (descPhase w gh gl name acts).1 = (acts ++ pre) ++ (mirrorPhase w gh gl name []).1
        ∧ ∀ a ∈ pre, a = Action.create_gitlab_repo ns name
          ∨ a = Action.set_gitlab_repo_description gl.id gh.description := by
    intro acts
    unfold descPhase
    by_cases hd : gl.description = gh.description
    · refine ⟨[], ?_, by simp⟩
      rw [if_neg (not_not_intro hd), mirrorPhase_extend]
      simp
    · rw [if_pos hd, hdesc hd]
      refine ⟨[Action.set_gitlab_repo_description gl.id gh.description], ?_, by simp⟩
      rw [mirrorPhase_extend w gh gl name
        (acts ++ [Action.set_gitlab_repo_description gl.id gh.description])]
  cases glOpt with
  | some g =>
    have hg : g = gl := by
      injection hwork
    subst hg
    rcases hdescPhase [] with ⟨pre, hpre, hmem⟩
    exact ⟨pre, by simpa using hpre, hmem⟩
  | none =>
    have hwork' : w.create_gitlab_repo ns name = Except.ok gl := hwork
    rcases hdescPhase [Action.create_gitlab_repo ns name] with ⟨pre, hpre, hmem⟩
    refine ⟨Action.create_gitlab_repo ns name :: pre, ?_, ?_⟩
    · have hb : syncrepoBody w gh none ns name
          = descPhase w gh gl name [Action.create_gitlab_repo ns name] := by
        unfold syncrepoBody
        rw [hwork']
      rw [hb, hpre]
      simp
    · intro a ha
      rcases List.mem_cons.mp ha with h | h
      · exact Or.inl h
      · exact hmem a h

/-- In the fetch branch, the mirror-phase trace is the fetch possibly
followed by pushes. -/
theorem mirrorTrace_fetch (w : World) (gh gl : Repo) (name : String)
    (hex : w.path_exists (repoPath name ++ "/HEAD") = true) :
    (mirrorPhase w gh gl name []).1 = [Action.run_command (gitFetch (repoPath name))]
    ∨ (mirrorPhase w gh gl name []).1 = [Action.run_command (gitFetch (repoPath name)),
        Action.run_command (gitPushAll (repoPath name) gl.url)]
    ∨ (mirrorPhase w gh gl name []).1 = [Action.run_command (gitFetch (repoPath name)),
        Action.run_command (gitPushAll (repoPath name) gl.url),
        Action.run_command (gitPushTags (repoPath name) gl.url)] := by
  unfold mirrorPhase
  rw [hex]
  cases hf : w.run_command (gitFetch (repoPath name)) with
  | error e => simp
  | ok u =>
    simp only [pushPhase]
    cases hpa : w.run_command (gitPushAll (repoPath name) gl.url) with
    | error e => simp
    | ok u =>
      cases hpt : w.run_command (gitPushTags (repoPath name) gl.url) with
      | error e => simp
      | ok u => simp

/-- In the clone branch, the mirror-phase trace is the directory creation,
possibly followed by the clone and pushes. -/
theorem mirrorTrace_clone (w : World) (gh gl : Repo) (name : String)
    (hex : w.path_exists (repoPath name ++ "/HEAD") = false) :
    (mirrorPhase w gh gl name []).1 = [Action.makedirs (repoPath name)]
    ∨ (mirrorPhase w gh gl name []).1 = [Action.makedirs (repoPath name),
        Action.run_command (gitClone gh.url (repoPath name))]
    ∨ (mirrorPhase w gh gl name []).1 = [Action.makedirs (repoPath name),
        Action.run_command (gitClone gh.url (repoPath name)),
        Action.run_command (gitPushAll (repoPath name) gl.url)]
    ∨ (mirrorPhase w gh gl name []).1 = [Action.makedirs (repoPath name),
        Action.run_command (gitClone gh.url (repoPath name)),
        Action.run_command (gitPushAll (repoPath name) gl.url),
        Action.run_command (gitPushTags (repoPath name) gl.url)] := by
  unfold mirrorPhase
  rw [hex]
  simp only [Bool.false_eq_true, if_false]
  cases hm : w.makedirs (repoPath name) with
  | error e => simp
  | ok u =>
    cases hcl : w.run_command (gitClone gh.url (repoPath name)) with
    | error e => simp
    | ok u =>
      simp only [pushPhase]
      cases hpa : w.run_command (gitPushAll (repoPath name) gl.url) with
      | error e => simp
      | ok u =>
        cases hpt : w.run_command (gitPushTags (repoPath name) gl.url) with
        | error e => simp
        | ok u => simp

/-- The working destination record of a task: the given one when present,
else the one returned by the creation call. -/
def workingRepo (w : World) (glOpt : Option Repo) (ns : Nat) (name : String) : Except Unit Repo :=
  match glOpt with
  | some gl => Except.ok gl
  | none => w.create_gitlab_repo ns name

/-- When the directory creation succeeds in the clone branch, the clone is
attempted. -/
theorem mirror_clone_mem (w : World) (gh gl : Repo) (name : String)
    (hex : w.path_exists (repoPath name ++ "/HEAD") = false)
    (hm : w.makedirs (repoPath name) = Except.ok ()) :
    Action.run_command (gitClone gh.url (repoPath name)) ∈ (mirrorPhase w gh gl name []).1 := by
  unfold mirrorPhase
  rw [hex]
  simp only [Bool.false_eq_true, if_false]
  rw [hm]
  cases hcl : w.run_command (gitClone gh.url (repoPath name)) with
  | error e => simp
  | ok u =>
    rw [pushPhase_extend]
    simp

/-- Claim C8: when the marker file `repos/{name}/HEAD` exists (and steps 1-2
pass), the sync fetches into the existing mirror and performs no directory
creation and no clone; otherwise it creates the directory and (when that
succeeds) performs the bare clone, and never fetches. -/
theorem mirror_reuse (w : World) (gh : Repo) (glOpt : Option Repo) (ns : Nat)
    (name : String) (gl : Repo)
    (hwork : workingRepo w glOpt ns name = Except.ok gl)
    (hdesc : gl.description ≠ gh.description →
      w.set_gitlab_repo_description gl.id gh.description = Except.ok ()) :
    (w.path_exists (repoPath name ++ "/HEAD") = true →
      Action.run_command (gitFetch (repoPath name)) ∈ (syncrepo w gh glOpt ns name).1
      ∧ (∀ p, Action.makedirs p ∉ (syncrepo w gh glOpt ns name).1)
      ∧ (∀ u p, Action.run_command (gitClone u p) ∉ (syncrepo w gh glOpt ns name).1))
    ∧ (w.path_exists (repoPath name ++ "/HEAD") = false →
      Action.makedirs (repoPath name) ∈ (syncrepo w gh glOpt ns name).1
      ∧ (w.makedirs (repoPath name) = Except.ok () →
        Action.run_command (gitClone gh.url (repoPath name)) ∈ (syncrepo w gh glOpt ns name).1)
      ∧ (∀ p, Action.run_command (gitFetch p) ∉ (syncrepo w gh glOpt ns name).1)) := by
  rcases body_reach_mirror w gh glOpt ns name gl hwork hdesc with ⟨pre, hpre, hmem⟩
  have hacts : (syncrepo w gh glOpt ns name).1 = pre ++ (mirrorPhase w gh gl name []).1 := by
    rw [syncrepo_fst, hpre]
  have preNoMakedirs : ∀ p, Action.makedirs p ∉ pre := by
    intro p hp
    rcases hmem _ hp with h | h <;> simp at h
  have preNoRun : ∀ c, Action.run_command c ∉ pre := by
    intro c hp
    rcases hmem _ hp with h | h <;> simp at h
  constructor
  · intro hex
    refine ⟨?_, ?_, ?_⟩
    · rw [hacts]
      exact List.mem_append.mpr (Or.inr (by
        rcases mirrorTrace_fetch w gh gl name hex with h | h | h <;> rw [h] <;> simp))
    · intro p hin
      rw [hacts] at hin
      rcases List.mem_append.mp hin with hin | hin
      · exact preNoMakedirs p hin
      · rcases mirrorTrace_fetch w gh gl name hex with h | h | h <;> rw [h] at hin <;>
          simp at hin
    · intro u p hin
      rw [hacts] at hin
      rcases List.mem_append.mp hin with hin | hin
      · exact preNoRun _ hin
      · rcases mirrorTrace_fetch w gh gl name hex with h | h | h <;> rw [h] at hin <;>
          simp only [List.mem_cons, List.not_mem_nil, or_false] at hin
        · exact gitClone_ne_gitFetch u p (repoPath name) (Action.run_command.inj hin)
        · rcases hin with hin | hin
          · exact gitClone_ne_gitFetch u p (repoPath name) (Action.run_command.inj hin)
          · exact gitClone_ne_gitPushAll u p (repoPath name) gl.url (Action.run_command.inj hin)
        · rcases hin with hin | hin | hin
          · exact gitClone_ne_gitFetch u p (repoPath name) (Action.run_command.inj hin)
          · exact gitClone_ne_gitPushAll u p (repoPath name) gl.url (Action.run_command.inj hin)
          · exact gitClone_ne_gitPushTags u p (repoPath name) gl.url (Action.run_command.inj hin)
  · intro hex
    refine ⟨?_, ?_, ?_⟩
    · rw [hacts]
      exact List.mem_append.mpr (Or.inr (by
        rcases mirrorTrace_clone w gh gl name hex with h | h | h | h <;> rw [h] <;> simp))
    · intro hm
      rw [hacts]
      exact List.mem_append.mpr (Or.inr (mirror_clone_mem w gh gl name hex hm))
    · intro p hin
      rw [hacts] at hin
      rcases List.mem_append.mp hin with hin | hin
      · exact preNoRun _ hin
      · rcases mirrorTrace_clone w gh gl name hex with h | h | h | h <;> rw [h] at hin <;>
          simp only [List.mem_cons, List.not_mem_nil, or_false] at hin
        · simp at hin
        · rcases hin with hin | hin
          · simp at hin
          · exact (gitClone_ne_gitFetch gh.url (repoPath name) p)
              ((Action.run_command.inj hin).symm)
        · rcases hin with hin | hin | hin
          · simp at hin
          · exact (gitClone_ne_gitFetch gh.url (repoPath name) p)
              ((Action.run_command.inj hin).symm)
          · exact gitFetch_ne_gitPushAll p (repoPath name) gl.url (Action.run_command.inj hin)
        · rcases hin with hin | hin | hin | hin
          · simp at hin
          · exact (gitClone_ne_gitFetch gh.url (repoPath name) p)
              ((Action.run_command.inj hin).symm)
          · exact gitFetch_ne_gitPushAll p (repoPath name) gl.url (Action.run_command.inj hin)
          · exact gitFetch_ne_gitPushTags p (repoPath name) gl.url (Action.run_command.inj hin)

/-- Witness for claim C8: with an existing mirror, a concrete sync fetches. -/
theorem mirror_reuse_witness :
    Action.run_command (gitFetch (repoPath "owner__proj"))
      ∈ (syncrepo exWorld exGithubRepo (some exGitlabRepo) 1 "owner__proj").1 :=
  ((mirror_reuse exWorld exGithubRepo (some exGitlabRepo) 1 "owner__proj" exGitlabRepo rfl
    (fun _ => rfl)).1 rfl).1

/-! ### Step order and short-circuiting (claim C9)

`succWorld w` keeps the creation outcome and the filesystem state of `w` but
makes every later call succeed; the trace of a run under `w` is a prefix of
the trace under `succWorld w`, whose shape is the fixed step order
create-if-absent, reconcile-description, ensure-mirror, push-all, push-tags. -/

/-- `w` with every post-creation call succeeding. -/
def succWorld (w : World) : World :=
  { w with
    set_gitlab_repo_description := fun _ _ => Except.ok ()
    makedirs := fun _ => Except.ok ()
    run_command := fun _ => Except.ok () }

/-- The step-1 actions of a task. -/
def createActions (glOpt : Option Repo) (ns : Nat) (name : String) : List Action :=
  match glOpt with
  | none => [Action.create_gitlab_repo ns name]
  | some _ => []

/-- The step-2 actions of a task with working record `gl`. -/
def descActions (gh gl : Repo) : List Action :=
  if gl.description = gh.description then []
  else [Action.set_gitlab_repo_description gl.id gh.description]

/-- The step-3/4/5 actions of a fully successful task. -/
def mirrorSuccActs (w : World) (gh gl : Repo) (name : String) : List Action :=
  (if w.path_exists (repoPath name ++ "/HEAD")
    then [Action.run_command (gitFetch (repoPath name))]
    else [Action.makedirs (repoPath name),
      Action.run_command (gitClone gh.url (repoPath name))])
  ++ [Action.run_command (gitPushAll (repoPath name) gl.url),
      Action.run_command (gitPushTags (repoPath name) gl.url)]

theorem prefix_append_left {α : Type} (acts : List α) {X Y : List α} (h : X <+: Y) :
    acts ++ X <+: acts ++ Y := by
  rcases h with ⟨t, ht⟩
  exact ⟨t, by rw [List.append_assoc, ht]⟩

theorem pushPhase_prefix_succ (w : World) (gl : Repo) (path : String) (acts : List Action) :
    (pushPhase w gl path acts).1 <+: acts
      ++ [Action.run_command (gitPushAll path gl.url),
          Action.run_command (gitPushTags path gl.url)] := by
  unfold pushPhase
  cases w.run_command (gitPushAll path gl.url) with
  | error e =>
    exact prefix_append_left acts ⟨[Action.run_command (gitPushTags path gl.url)], rfl⟩
  | ok u =>
    cases w.run_command (gitPushTags path gl.url) with
    | error e => exact List.prefix_refl _
    | ok u => exact List.prefix_refl _

theorem mirrorPhase_prefix_succ (w : World) (gh gl : Repo) (name : String) (acts : List Action) :
    (mirrorPhase w gh gl name acts).1 <+: acts ++ mirrorSuccActs w gh gl name := by
  unfold mirrorPhase mirrorSuccActs
  cases hpe : w.path_exists (repoPath name ++ "/HEAD") with
  | true =>
    simp only [eq_self_iff_true, if_true]
    cases hf : w.run_command (gitFetch (repoPath name)) with
    | error e =>
      exact prefix_append_left acts
        (List.prefix_append [Action.run_command (gitFetch (repoPath name))] _)
    | ok u =>
      have h := pushPhase_prefix_succ w gl (repoPath name)
        (acts ++ [Action.run_command (gitFetch (repoPath name))])
      simpa [List.append_assoc] using h
  | false =>
    simp only [Bool.false_eq_true, if_false]
    cases hm : w.makedirs (repoPath name) with
    | error e =>
      exact prefix_append_left acts
        ⟨[Action.run_command (gitClone gh.url (repoPath name)),
          Action.run_command (gitPushAll (repoPath name) gl.url),
          Action.run_command (gitPushTags (repoPath name) gl.url)], by simp⟩
    | ok u =>
      cases hcl : w.run_command (gitClone gh.url (repoPath name)) with
      | error e =>
        exact prefix_append_left acts
          ⟨[Action.run_command (gitPushAll (repoPath name) gl.url),
            Action.run_command (gitPushTags (repoPath name) gl.url)], by simp⟩
      | ok u =>
        have h := pushPhase_prefix_succ w gl (repoPath name)
          (acts ++ [Action.makedirs (repoPath name),
            Action.run_command (gitClone gh.url (repoPath name))])
        simpa [List.append_assoc] using h

theorem mirrorSucc_trace (w : World) (gh gl : Repo) (name : String) (acts : List Action) :
    (mirrorPhase (succWorld w) gh gl name acts).1 = acts ++ mirrorSuccActs w gh gl name := by
  unfold mirrorSuccActs
  cases hpe : w.path_exists (repoPath name ++ "/HEAD") with
  | true => simp [mirrorPhase, pushPhase, succWorld, hpe]
  | false => simp [mirrorPhase, pushPhase, succWorld, hpe]

theorem descSucc_trace (w : World) (gh gl : Repo) (name : String) (acts : List Action) :
    (descPhase (succWorld w) gh gl name acts).1
      = acts ++ descActions gh gl ++ mirrorSuccActs w gh gl name := by
  unfold descPhase
  by_cases hd : gl.description = gh.description
  · rw [if_neg (not_not_intro hd), mirrorSucc_trace]
    simp [descActions, hd]
  · rw [if_pos hd]
    show (mirrorPhase (succWorld w) gh gl name
      (acts ++ [Action.set_gitlab_repo_description gl.id gh.description])).1 = _
    rw [mirrorSucc_trace]
    simp [descActions, hd]

theorem descPhase_prefix_succ (w : World) (gh gl : Repo) (name : String) (acts : List Action) :
    (descPhase w gh gl name acts).1 <+: (descPhase (succWorld w) gh gl name acts).1 := by
  rw [descSucc_trace]
  unfold descPhase
  by_cases hd : gl.description = gh.description
  · rw [if_neg (not_not_intro hd)]
    have h := mirrorPhase_prefix_succ w gh gl name acts
    simpa [descActions, hd] using h
  · rw [if_pos hd]
    cases hsd : w.set_gitlab_repo_description gl.id gh.description with
    | error e =>
      refine ⟨mirrorSuccActs w gh gl name, ?_⟩
      simp [descActions, hd]
    | ok u =>
      have h := mirrorPhase_prefix_succ w gh gl name
        (acts ++ [Action.set_gitlab_repo_description gl.id gh.description])
      simpa [descActions, hd, List.append_assoc] using h

/-- The body reduces to the description phase once the working record is
known. -/
theorem body_descPhase (w : World) (gh : Repo) (glOpt : Option Repo) (ns : Nat)
    (name : String) (gl : Repo)
    (hwork : workingRepo w glOpt ns name = Except.ok gl) :
    syncrepoBody w gh glOpt ns name = descPhase w gh gl name (createActions glOpt ns name) := by
  cases glOpt with
  | some g =>
    have hg : g = gl := by injection hwork
    subst hg
    rfl
  | none =>
    have hwork' : w.create_gitlab_repo ns name = Except.ok gl := hwork
    unfold syncrepoBody
    rw [hwork']
    rfl

/-- The fully successful trace: step-1, step-2, then mirror/push actions. -/
theorem bodySucc_trace (w : World) (gh : Repo) (glOpt : Option Repo) (ns : Nat)
    (name : String) (gl : Repo)
    (hwork : workingRepo w glOpt ns name = Except.ok gl) :
    (syncrepoBody (succWorld w) gh glOpt ns name).1
      = createActions glOpt ns name ++ descActions gh gl ++ mirrorSuccActs w gh gl name := by
  have hwork' : workingRepo (succWorld w) glOpt ns name = Except.ok gl := hwork
  rw [body_descPhase (succWorld w) gh glOpt ns name gl hwork']
  have h := descSucc_trace w gh gl name (createActions glOpt ns name)
  rw [h]

theorem body_prefix_succ (w : World) (gh : Repo) (glOpt : Option Repo) (ns : Nat) (name : String) :
    (syncrepoBody w gh glOpt ns name).1 <+: (syncrepoBody (succWorld w) gh glOpt ns name).1 := by
  cases glOpt with
  | some g =>
    show (descPhase w gh g name []).1 <+: (descPhase (succWorld w) gh g name []).1
    exact descPhase_prefix_succ w gh g name []
  | none =>
    cases hc : w.create_gitlab_repo ns name with
    | error e =>
      have h1 : syncrepoBody w gh none ns name
          = ([Action.create_gitlab_repo ns name], Except.error e) := by
        unfold syncrepoBody
        rw [hc]
      have h2 : syncrepoBody (succWorld w) gh none ns name
          = ([Action.create_gitlab_repo ns name], Except.error e) := by
        unfold syncrepoBody
        show (match w.create_gitlab_repo ns name with
          | Except.error e => ([Action.create_gitlab_repo ns name], Except.error e)
          | Except.ok created => descPhase (succWorld w) gh created name
              [Action.create_gitlab_repo ns name]) = _
        rw [hc]
      rw [h1, h2]
    | ok created =>
      have h1 : syncrepoBody w gh none ns name
          = descPhase w gh created name [Action.create_gitlab_repo ns name] := by
        unfold syncrepoBody
        rw [hc]
      have h2 : syncrepoBody (succWorld w) gh none ns name
          = descPhase (succWorld w) gh created name [Action.create_gitlab_repo ns name] := by
        unfold syncrepoBody
        show (match w.create_gitlab_repo ns name with
          | Except.error e => ([Action.create_gitlab_repo ns name], Except.error e)
          | Except.ok created => descPhase (succWorld w) gh created name
              [Action.create_gitlab_repo ns name]) = _
        rw [hc]
      rw [h1, h2]
      exact descPhase_prefix_succ w gh created name [Action.create_gitlab_repo ns name]

/-- Claim C9: the five steps run in the fixed order create-if-absent,
reconcile-description, ensure-mirror (fetch or makedirs+clone), push-all,
push-tags — the fully successful trace has exactly that shape and every
actual trace is a prefix of it — and a failing step ends the trace at the
failing action, so no later step (in particular no push) is ever attempted
after a failed create, description update, fetch, or clone. -/
theorem steps_short_circuit (w : World) (gh : Repo) (glOpt : Option Repo) (ns : Nat)
    (name : String) :
    ((syncrepoBody w gh glOpt ns name).1 <+: (syncrepoBody (succWorld w) gh glOpt ns name).1)
    ∧ (∀ gl, workingRepo w glOpt ns name = Except.ok gl →
      (syncrepoBody (succWorld w) gh glOpt ns name).1
        = createActions glOpt ns name ++ descActions gh gl ++ mirrorSuccActs w gh gl name)
    ∧ (glOpt = none → w.create_gitlab_repo ns name = Except.error () →
      (syncrepoBody w gh glOpt ns name).1 = [Action.create_gitlab_repo ns name])
    ∧ (∀ gl, workingRepo w glOpt ns name = Except.ok gl →
      gl.description ≠ gh.description →
      w.set_gitlab_repo_description gl.id gh.description = Except.error () →
      (syncrepoBody w gh glOpt ns name).1
        = createActions glOpt ns name
          ++ [Action.set_gitlab_repo_description gl.id gh.description])
    ∧ (∀ gl, workingRepo w glOpt ns name = Except.ok gl →
      (gl.description = gh.description
        ∨ w.set_gitlab_repo_description gl.id gh.description = Except.ok ()) →
      w.path_exists (repoPath name ++ "/HEAD") = true →
      w.run_command (gitFetch (repoPath name)) = Except.error () →
      (syncrepoBody w gh glOpt ns name).1
        = createActions glOpt ns name ++ descActions gh gl
          ++ [Action.run_command (gitFetch (repoPath name))])
    ∧ (∀ gl, workingRepo w glOpt ns name = Except.ok gl →
      (gl.description = gh.description
        ∨ w.set_gitlab_repo_description gl.id gh.description = Except.ok ()) →
      w.path_exists (repoPath name ++ "/HEAD") = false →
      w.makedirs (repoPath name) = Except.ok () →
      w.run_command (gitClone gh.url (repoPath name)) = Except.error () →
      (syncrepoBody w gh glOpt ns name).1
        = createActions glOpt ns name ++ descActions gh gl
          ++ [Action.makedirs (repoPath name),
              Action.run_command (gitClone gh.url (repoPath name))]) := by
  refine ⟨body_prefix_succ w gh glOpt ns name,
    fun gl hwork => bodySucc_trace w gh glOpt ns name gl hwork, ?_, ?_, ?_, ?_⟩
  · intro hnone hc
    subst hnone
    unfold syncrepoBody
    rw [hc]
  · intro gl hwork hd hsd
    rw [body_descPhase w gh glOpt ns name gl hwork]
    unfold descPhase
    rw [if_pos hd, hsd]
  · intro gl hwork hdesc2 hex hf
    rw [body_descPhase w gh glOpt ns name gl hwork]
    have hmir : ∀ acts, (mirrorPhase w gh gl name acts).1
        = acts ++ [Action.run_command (gitFetch (repoPath name))] := by
      intro acts
      unfold mirrorPhase
      rw [hex]
      simp only [eq_self_iff_true, if_true]
      rw [hf]
    unfold descPhase
    by_cases hd : gl.description = gh.description
    · rw [if_neg (not_not_intro hd), hmir]
      simp [descActions, hd]
    · have hsd : w.set_gitlab_repo_description gl.id gh.description = Except.ok () := by
        rcases hdesc2 with h | h
        · exact absurd h hd
        · exact h
      rw [if_pos hd, hsd, hmir]
      simp [descActions, hd]
  · intro gl hwork hdesc2 hex hm hcl
    rw [body_descPhase w gh glOpt ns name gl hwork]
    have hmir : ∀ acts, (mirrorPhase w gh gl name acts).1
        = acts ++ [Action.makedirs (repoPath name),
            Action.run_command (gitClone gh.url (repoPath name))] := by
      intro acts
      unfold mirrorPhase
      rw [hex]
      simp only [Bool.false_eq_true, if_false]
      rw [hm, hcl]
    unfold descPhase
    by_cases hd : gl.description = gh.description
    · rw [if_neg (not_not_intro hd), hmir]
      simp [descActions, hd]
    · have hsd : w.set_gitlab_repo_description gl.id gh.description = Except.ok () := by
        rcases hdesc2 with h | h
        · exact absurd h hd
        · exact h
      rw [if_pos hd, hsd, hmir]
      simp [descActions, hd]

/-- Witness for claim C9: the fully successful trace of a concrete task, in
the fixed step order (no creation needed, description update, fetch, push
all, push tags). -/
theorem steps_short_circuit_witness :
    (syncrepoBody (succWorld exWorld) exGithubRepo (some exGitlabRepo) 1 "owner__proj").1
      = [Action.set_gitlab_repo_description 5 (some "A project"),
         Action.run_command (gitFetch (repoPath "owner__proj")),
         Action.run_command (gitPushAll (repoPath "owner__proj")
           "git@gitlab.example:g/owner__proj.git"),
         Action.run_command (gitPushTags (repoPath "owner__proj")
           "git@gitlab.example:g/owner__proj.git")] := by
  rw [(steps_short_circuit exWorld exGithubRepo (some exGitlabRepo) 1 "owner__proj").2.1
    exGitlabRepo rfl]
  decide

/-! ### Every effect is additive (claim C6) -/

theorem mem_pushPhase (w : World) (gl : Repo) (path : String) (acts : List Action)
    (a : Action) (h : a ∈ (pushPhase w gl path acts).1) :
    a ∈ acts ∨ a = Action.run_command (gitPushAll path gl.url)
      ∨ a = Action.run_command (gitPushTags path gl.url) := by
  have hsub := (pushPhase_prefix_succ w gl path acts).subset h
  simpa using hsub

theorem mem_mirrorPhase (w : World) (gh gl : Repo) (name : String) (acts : List Action)
    (a : Action) (h : a ∈ (mirrorPhase w gh gl name acts).1) :
    a ∈ acts ∨ a = Action.makedirs (repoPath name)
      ∨ a = Action.run_command (gitFetch (repoPath name))
      ∨ a = Action.run_command (gitClone gh.url (repoPath name))
      ∨ a = Action.run_command (gitPushAll (repoPath name) gl.url)
      ∨ a = Action.run_command (gitPushTags (repoPath name) gl.url) := by
  have hsub := (mirrorPhase_prefix_succ w gh gl name acts).subset h
  rcases List.mem_append.mp hsub with h' | h'
  · exact Or.inl h'
  · unfold mirrorSuccActs at h'
    by_cases hex : w.path_exists (repoPath name ++ "/HEAD") = true <;>
      simp [hex] at h' <;> tauto

theorem mem_descPhase (w : World) (gh gl : Repo) (name : String) (acts : List Action)
    (a : Action) (h : a ∈ (descPhase w gh gl name acts).1) :
    a ∈ acts ∨ a = Action.set_gitlab_repo_description gl.id gh.description
      ∨ a = Action.makedirs (repoPath name)
      ∨ a = Action.run_command (gitFetch (repoPath name))
      ∨ a = Action.run_command (gitClone gh.url (repoPath name))
      ∨ a = Action.run_command (gitPushAll (repoPath name) gl.url)
      ∨ a = Action.run_command (gitPushTags (repoPath name) gl.url) := by
  unfold descPhase at h
  by_cases hd : gl.description = gh.description
  · rw [if_neg (not_not_intro hd)] at h
    rcases mem_mirrorPhase w gh gl name acts a h with h' | h' | h' | h' | h' | h' <;> tauto
  · rw [if_pos hd] at h
    cases hsd : w.set_gitlab_repo_description gl.id gh.description with
    | error e =>
      rw [hsd] at h
      have h' : a ∈ acts
          ++ [Action.set_gitlab_repo_description gl.id gh.description] := h
      rcases List.mem_append.mp h' with h'' | h''
      · exact Or.inl h''
      · simp at h''
        tauto
    | ok u =>
      rw [hsd] at h
      have h' : a ∈ (mirrorPhase w gh gl name
          (acts ++ [Action.set_gitlab_repo_description gl.id gh.description])).1 := h
      rcases mem_mirrorPhase w gh gl name _ a h' with h'' | h'' | h'' | h'' | h'' | h''
      · rcases List.mem_append.mp h'' with h₃ | h₃
        · exact Or.inl h₃
        · simp at h₃
          tauto
      all_goals tauto

theorem lookupName_name (repos : List Repo) (n : String) (r : Repo)
    (h : lookupName repos n = some r) : r.name = n := by
  unfold lookupName at h
  have := List.find?_some h
  simpa using this

/-- Claim C6: the system is additive only.  Every externally visible effect
of a sync is a creation, a description update carrying the source
description, a directory creation, or one of the four git commands (fetch,
bare clone, push-all, push-tags) — never a deletion; every task is built
from a source record; and a destination repository whose name matches no
source record's mapped name occurs in no task. -/
theorem additive_only :
    (∀ (w : World) (gh : Repo) (glOpt : Option Repo) (ns : Nat) (name : String),
      ∀ a ∈ (syncrepo w gh glOpt ns name).1,
        a = Action.create_gitlab_repo ns name
        ∨ (∃ i, a = Action.set_gitlab_repo_description i gh.description)
        ∨ a = Action.makedirs (repoPath name)
        ∨ a = Action.run_command (gitFetch (repoPath name))
        ∨ a = Action.run_command (gitClone gh.url (repoPath name))
        ∨ (∃ u, a = Action.run_command (gitPushAll (repoPath name) u))
        ∨ (∃ u, a = Action.run_command (gitPushTags (repoPath name) u)))
    ∧ (∀ (stars gitlab_repos : List Repo) (ns : Nat) (t : Task),
      t ∈ buildTasks stars gitlab_repos ns → t.1 ∈ stars)
    ∧ (∀ (stars gitlab_repos : List Repo) (ns : Nat) (d : Repo), d ∈ gitlab_repos →
      (∀ s ∈ stars, convert_name s.name ≠ d.name) →
      ∀ t ∈ buildTasks stars gitlab_repos ns, t.2.1 ≠ some d) := by
  refine ⟨?_, ?_, ?_⟩
  · intro w gh glOpt ns name a ha
    rw [syncrepo_fst] at ha
    have hfrom : ∀ (gl : Repo) (acts : List Action),
        a ∈ (descPhase w gh gl name acts).1 →
        a ∈ acts
        ∨ (∃ i, a = Action.set_gitlab_repo_description i gh.description)
        ∨ a = Action.makedirs (repoPath name)
        ∨ a = Action.run_command (gitFetch (repoPath name))
        ∨ a = Action.run_command (gitClone gh.url (repoPath name))
        ∨ (∃ u, a = Action.run_command (gitPushAll (repoPath name) u))
        ∨ (∃ u, a = Action.run_command (gitPushTags (repoPath name) u)) := by
      intro gl acts h
      rcases mem_descPhase w gh gl name acts a h with h' | h' | h' | h' | h' | h' | h'
      · exact Or.inl h'
      · exact Or.inr (Or.inl ⟨gl.id, h'⟩)
      · tauto
      · tauto
      · tauto
      · exact Or.inr (Or.inr (Or.inr (Or.inr (Or.inr (Or.inl ⟨gl.url, h'⟩)))))
      · exact Or.inr (Or.inr (Or.inr (Or.inr (Or.inr (Or.inr ⟨gl.url, h'⟩)))))
    cases glOpt with
    | some g =>
      have h : a ∈ (descPhase w gh g name []).1 := ha
      rcases hfrom g [] h with h' | h' | h' | h' | h' | h' | h'
      · simp at h'
      all_goals tauto
    | none =>
      cases hc : w.create_gitlab_repo ns name with
      | error e =>
        unfold syncrepoBody at ha
        rw [hc] at ha
        have h : a ∈ [Action.create_gitlab_repo ns name] := ha
        simp at h
        exact Or.inl h
      | ok created =>
        unfold syncrepoBody at ha
        rw [hc] at ha
        have h : a ∈ (descPhase w gh created name [Action.create_gitlab_repo ns name]).1 := ha
        rcases hfrom created [Action.create_gitlab_repo ns name] h with h' | h' | h' | h' | h' | h' | h'
        · simp at h'
          exact Or.inl h'
        all_goals tauto
  · intro stars gitlab_repos ns t ht
    rcases List.mem_map.mp ht with ⟨gh, hgh, rfl⟩
    exact hgh
  · intro stars gitlab_repos ns d _ hnomatch t ht hsome
    rcases List.mem_map.mp ht with ⟨gh, hgh, rfl⟩
    have hlook : lookupName gitlab_repos (convert_name gh.name) = some d := hsome
    have := lookupName_name gitlab_repos (convert_name gh.name) d hlook
    exact hnomatch gh hgh this.symm

/-- A destination repo whose name matches no source mapped name. -/
def exUnrelatedRepo : Repo := ⟨"unrelated", "git@gitlab.example:g/unrelated.git", none, 3⟩

/-- Witness for claim C6 (third part): a destination repo matching no source
mapped name occurs in no task. -/
theorem additive_only_witness :
    (exGithubRepo, lookupName [exUnrelatedRepo] (convert_name exGithubRepo.name), 1,
      convert_name exGithubRepo.name).2.1 ≠ some exUnrelatedRepo :=
  additive_only.2.2 [exGithubRepo] [exUnrelatedRepo] 1 exUnrelatedRepo (by simp) (by decide)
    (exGithubRepo, lookupName [exUnrelatedRepo] (convert_name exGithubRepo.name), 1,
      convert_name exGithubRepo.name) (by simp [buildTasks])

/-! ### Non-atomicity of a failed sync (claim C10) -/

/-- Claim C10 (implicit): `syncrepo` is not atomic.  If the creation, the
description update, the directory creation and the clone all happen and then
the push fails, all those earlier effects remain in the trace while the task
reports failure. -/
theorem syncrepo_not_atomic (w : World) (gh : Repo) (ns : Nat) (name : String)
    (created : Repo)
    (hc : w.create_gitlab_repo ns name = Except.ok created)
    (hd : created.description ≠ gh.description)
    (hds : w.set_gitlab_repo_description created.id gh.description = Except.ok ())
    (hpe : w.path_exists (repoPath name ++ "/HEAD") = false)
    (hm : w.makedirs (repoPath name) = Except.ok ())
    (hcl : w.run_command (gitClone gh.url (repoPath name)) = Except.ok ())
    (hpa : w.run_command (gitPushAll (repoPath name) created.url) = Except.error ()) :
    (syncrepo w gh none ns name).1
      = [Action.create_gitlab_repo ns name,
         Action.set_gitlab_repo_description created.id gh.description,
         Action.makedirs (repoPath name),
         Action.run_command (gitClone gh.url (repoPath name)),
         Action.run_command (gitPushAll (repoPath name) created.url)]
    ∧ (syncrepo w gh none ns name).2 = false := by
  have hbody : syncrepoBody w gh none ns name
      = ([Action.create_gitlab_repo ns name,
          Action.set_gitlab_repo_description created.id gh.description,
          Action.makedirs (repoPath name),
          Action.run_command (gitClone gh.url (repoPath name)),
          Action.run_command (gitPushAll (repoPath name) created.url)],
        Except.error ()) := by
    rw [body_descPhase w gh none ns name created hc]
    unfold descPhase
    rw [if_pos hd, hds]
    unfold mirrorPhase
    rw [hpe]
    simp only [Bool.false_eq_true, if_false]
    rw [hm, hcl]
    unfold pushPhase
    rw [hpa]
    rfl
  constructor
  · rw [syncrepo_fst, hbody]
  · unfold syncrepo
    rw [hbody]

/-- GitHub record for the C10 witness. -/
def exGithubRepoP : Repo := ⟨"o/p", "https://github.example/o/p.git", some "new", 3⟩

/-- Created GitLab record for the C10 witness. -/
def exCreatedRepo : Repo := ⟨"p", "git@gitlab.example:g/p.git", some "old", 7⟩

/-- A world in which creation, description update, makedirs and clone all
succeed but the push of all branches fails. -/
def exPushFailWorld : World where
  create_gitlab_repo := fun _ _ => Except.ok exCreatedRepo
  set_gitlab_repo_description := fun _ _ => Except.ok ()
  path_exists := fun _ => false
  makedirs := fun _ => Except.ok ()
  run_command := fun c =>
    if c = gitPushAll (repoPath "p") "git@gitlab.example:g/p.git"
    then Except.error () else Except.ok ()

/-- Witness for claim C10 at a concrete failing push. -/
theorem syncrepo_not_atomic_witness :
    (syncrepo exPushFailWorld exGithubRepoP none 9 "p").1
      = [Action.create_gitlab_repo 9 "p",
         Action.set_gitlab_repo_description exCreatedRepo.id exGithubRepoP.description,
         Action.makedirs (repoPath "p"),
         Action.run_command (gitClone exGithubRepoP.url (repoPath "p")),
         Action.run_command (gitPushAll (repoPath "p") exCreatedRepo.url)]
    ∧ (syncrepo exPushFailWorld exGithubRepoP none 9 "p").2 = false :=
  syncrepo_not_atomic exPushFailWorld exGithubRepoP 9 "p" exCreatedRepo rfl (by decide)
    rfl rfl rfl rfl rfl

end GithubSync
